import Mathlib

/-!
Verification of the GenAI Gateway request-orchestration core.

The development shallowly embeds the two components of the core:

* `RL` — the token-bucket `RateLimiter` class.  Its mutable instance state
  (`tokens`, `lastRefill`, the waiter queue) becomes an explicit `State`
  record; wall-clock reads (`performance.now()` / `Date.now()`) become an
  explicit `now : ℚ` argument; the timer callbacks (`processQueue`, a
  per-waiter timeout firing, `shutdown`) become operations on the state.
  JavaScript runs callbacks to completion one at a time, so an execution of
  the limiter is a sequence of such operations (`Op` / `run`).
  A per-waiter timeout can only fire while its timer is armed; every path
  that removes a waiter from the queue first clears its timer
  (`processQueue` and `shutdown` call clearTimeout, the timeout callback
  nulls it before rejecting), so in the model a `fire` is guarded by the
  waiter being present in the queue with `armed = true`.
  Waiter promises are bookkept by id: a granted waiter's id goes to
  `granted`, a timed-out one's to `timedOut`, one rejected by `shutdown`
  to `shutdownRejected`.

* `Orchestrator` — `queryModel`'s retry loop and `queryAllModels`' fan-out
  and merge.  `Promise.allSettled` delivers one terminal outcome per
  backend, in backend order; the embedding therefore takes the list of
  per-backend outcomes (`Except` of an error message or an `ApiResponse`)
  as input and models the merge loop exactly as the source writes it
  (`forEach`/`push` becomes `foldl` with append).  `Math.random()` becomes
  an explicit rational argument in `[0, 1)`.

Numbers (token counts, timestamps, rates) are modelled by `ℚ`.
-/

namespace RL

/-- A queued waiter of `RateLimiter.acquire`: the promise's identity and
whether a per-waiter timeout timer is armed (`entry.timer` non-null). -/
structure Waiter where
  id : Nat
  armed : Bool
deriving DecidableEq, Repr

/-- The state of one `RateLimiter` instance: the constructor parameters
`tokensPerSecond` and `bucketSize`, the bucket fields `tokens` and
`lastRefill`, the waiter `queue`, and bookkeeping of settled waiters. -/
structure State where
  tokensPerSecond : ℚ
  bucketSize : ℚ
  tokens : ℚ
  lastRefill : ℚ
  queue : List Waiter
  granted : List Nat
  timedOut : List Nat
  shutdownRejected : List Nat
  nextId : Nat
deriving DecidableEq, Repr

/-- The constructor `new RateLimiter(tokensPerSecond, bucketSize, startFull)`:
tokens start at `bucketSize` when `startFull`, else at `0`. -/
def mkState (rate cap : ℚ) (startFull : Bool) : State :=
  { tokensPerSecond := rate
    bucketSize := cap
    tokens := if startFull then cap else 0
    lastRefill := 0
    queue := []
    granted := []
    timedOut := []
    shutdownRejected := []
    nextId := 0 }

/-- `refillTokens()`: a no-op when no time elapsed, otherwise
`tokens = min(bucketSize, tokens + elapsedMs / 1000 * tokensPerSecond)`
and `lastRefill = now`. -/
def refillTokens (now : ℚ) (s : State) : State :=
  let elapsedMs := now - s.lastRefill
  if elapsedMs ≤ 0 then s
  else
    let added := elapsedMs / 1000 * s.tokensPerSecond
    { s with tokens := min s.bucketSize (s.tokens + added), lastRefill := now }

/-- `tryAcquire()`: refill, then take one token if at least one is held. -/
def tryAcquireFn (now : ℚ) (s : State) : Bool × State :=
  let s' := refillTokens now s
  if 1 ≤ s'.tokens then (true, { s' with tokens := s'.tokens - 1 })
  else (false, s')

/-- Whether `acquire(timeoutMs)` arms a per-waiter timer:
`typeof timeoutMs === 'number' && timeoutMs > 0`. -/
def armedOf (tmo : Option ℚ) : Bool :=
  match tmo with
  | some t => decide (0 < t)
  | none => false

/-- `acquire(timeoutMs)`: fast path through `tryAcquire`; otherwise enqueue
a fresh waiter, with a timer armed only for a positive numeric timeout. -/
def acqOp (now : ℚ) (tmo : Option ℚ) (s : State) : State :=
  let p := tryAcquireFn now s
  let s' := p.2
  if p.1 then
    { s' with granted := s'.granted ++ [s'.nextId], nextId := s'.nextId + 1 }
  else
    { s' with queue := s'.queue ++ [⟨s'.nextId, armedOf tmo⟩],
              nextId := s'.nextId + 1 }

/-- The drain loop of `processQueue()`: while waiters remain and
`tokens >= 1`, shift the head waiter, consume one token, clear its timer
and resolve it.  Returns the remaining queue, the remaining tokens and the
ids granted, in grant (FIFO) order. -/
def drain : List Waiter → ℚ → List Waiter × ℚ × List Nat
  | [], t => ([], t, [])
  | w :: ws, t =>
    if 1 ≤ t then
      let r := drain ws (t - 1)
      (r.1, r.2.1, w.id :: r.2.2)
    else (w :: ws, t, [])

/-- `processQueue()`: refill, then drain the queue in FIFO order. -/
def processOp (now : ℚ) (s : State) : State :=
  let s' := refillTokens now s
  let r := drain s'.queue s'.tokens
  { s' with queue := r.1, tokens := r.2.1, granted := s'.granted ++ r.2.2 }

/-- Remove the first waiter with the given id from a queue
(`indexOf` + `splice` in the source), returning it when found. -/
def removeById (i : Nat) : List Waiter → List Waiter × Option Waiter
  | [] => ([], none)
  | w :: ws =>
    if w.id = i then (ws, some w)
    else
      let r := removeById i ws
      (w :: r.1, r.2)

/-- A per-waiter timeout timer firing.  The callback runs only while the
timer is armed; it splices the entry out of the queue and rejects the
promise with the acquire-timeout error. -/
def fireOp (i : Nat) (s : State) : State :=
  let r := removeById i s.queue
  match r.2 with
  | some w =>
    if w.armed then { s with queue := r.1, timedOut := s.timedOut ++ [i] }
    else s
  | none => s

/-- `shutdown()`: cancel timers and reject every queued waiter, in FIFO
order, with the shutdown error.  Bucket fields are untouched. -/
def shutdownOp (s : State) : State :=
  { s with queue := [],
           shutdownRejected := s.shutdownRejected ++ s.queue.map Waiter.id }

/-- One atomic limiter event, as scheduled by the JavaScript event loop. -/
inductive Op
  | tryAcq (now : ℚ)
  | acq (now : ℚ) (tmo : Option ℚ)
  | process (now : ℚ)
  | fire (i : Nat)
  | shutdown
deriving DecidableEq, Repr

/-- Apply one event to the limiter state. -/
def applyOp (s : State) : Op → State
  | Op.tryAcq now => (tryAcquireFn now s).2
  | Op.acq now tmo => acqOp now tmo s
  | Op.process now => processOp now s
  | Op.fire i => fireOp i s
  | Op.shutdown => shutdownOp s

/-- Run a sequence of limiter events. -/
def run (s : State) (ops : List Op) : State :=
  ops.foldl applyOp s

/-- All waiter ids ever allocated, each under the bucket it now sits in:
still queued, granted, timed out, or rejected by shutdown. -/
def allIds (s : State) : List Nat :=
  s.queue.map Waiter.id ++ s.granted ++ s.timedOut ++ s.shutdownRejected

/-- The bucket-bound invariant of §3: `0 ≤ tokens ≤ capacity`. -/
def TokenInv (s : State) : Prop := 0 ≤ s.tokens ∧ s.tokens ≤ s.bucketSize

/-- The waiter-bookkeeping invariant: every allocated id sits in exactly
one bucket (still queued, granted, timed out, or shutdown-rejected), and
all allocated ids lie below `nextId`. -/
def IdsInv (s : State) : Prop :=
  (allIds s).Nodup ∧ ∀ i ∈ allIds s, i < s.nextId

/-- A waiter id that cannot time out: it has been allocated, has not timed
out, and if it still sits in the queue its timer is unarmed. -/
def NoTimeoutFor (i : Nat) (s : State) : Prop :=
  i < s.nextId ∧ i ∉ s.timedOut ∧ ∀ w ∈ s.queue, w.id = i → w.armed = false

end RL

/-- A concrete limiter state used to probe the refill arithmetic:
rate 1 token/s, capacity 10, 8 tokens currently held, last refill at 0. -/
def c5state : RL.State :=
  { tokensPerSecond := 1
    bucketSize := 10
    tokens := 8
    lastRefill := 0
    queue := []
    granted := []
    timedOut := []
    shutdownRejected := []
    nextId := 0 }

namespace Orchestrator

/-- A `ModelResponse` item. -/
structure ModelResponse where
  id : String
  content : String
  confidence : ℚ
  sources : List String
  model : String
deriving DecidableEq, Repr

/-- The `ApiResponse<T>` wrapper returned by `queryModel`. -/
structure ApiResponse (α : Type) where
  data : α
  timestamp : ℚ
  source : String
deriving DecidableEq, Repr

/-- The status field of a `ModelStatus` event. -/
inductive QueryStatus
  | idle
  | pending
  | success
  | error
deriving DecidableEq, Repr, BEq

/-- A `ModelStatus` progress event delivered to `onProgress`. -/
structure ModelStatus where
  model : String
  status : QueryStatus
  latency : Option ℚ
  errMsg : Option String
deriving DecidableEq, Repr, BEq

/-- The outcome of one backend's `queryModel` call as observed by
`Promise.allSettled`: fulfilled with an `ApiResponse`, or rejected with an
error message. -/
abbrev Outcome : Type := Except String (ApiResponse (List ModelResponse))

/-- The fixed backend list `MODELS`, in declaration order. -/
def MODELS : List String := ["GPT-4o", "Claude Sonnet 3.5", "Gemini"]

/-- The per-model rate-limit profiles `MODEL_CONFIGS`
(`tokensPerSecond`, `bucketSize`). -/
def MODEL_CONFIGS : List (String × ℚ × ℚ) :=
  [("GPT-4o", (3, 10)), ("Claude Sonnet 3.5", (2, 5)), ("Gemini", (5, 15))]

/-- The backoff base of `queryModel`'s retry loop:
`Math.pow(2, attempt) * 1000` milliseconds.  The source applies no cap. -/
def backoffBase (attempt : Nat) : Nat := 2 ^ attempt * 1000

/-- The jitter `Math.floor(Math.random() * 200)`, with the `Math.random()`
draw `r ∈ [0, 1)` made explicit. -/
def jitterOf (r : ℚ) : Nat := ⌊r * 200⌋.toNat

/-- The error message thrown when the loop body runs zero times. -/
def exhaustedMsg : String := "Failed after retries"

/-- The retry loop of `queryModel`, lines 66–90: `fuel = retries - attempt`
runs of the loop body remain.  `call attempt` is the outcome of
`simulateAPICall` on that attempt; `jit attempt` the jitter drawn for it.
Returns the result together with the list of backoff waits performed, in
order.  Falling out of the loop raises the final `Failed after N retries`
error. -/
def retryGo (call : Nat → Except String (ApiResponse (List ModelResponse)))
    (jit : Nat → Nat) : Nat → Nat → Except String (ApiResponse (List ModelResponse)) × List Nat
  | 0, _ => (Except.error exhaustedMsg, [])
  | fuel + 1, attempt =>
    match call attempt with
    | Except.ok v => (Except.ok v, [])
    | Except.error e =>
      if fuel = 0 then (Except.error e, [])
      else
        let w := backoffBase attempt + jit attempt
        let r := retryGo call jit fuel (attempt + 1)
        (r.1, w :: r.2)

/-- `queryModel`'s attempt loop starting at attempt 0 with `retries` total
attempts. -/
def queryModelRetry (call : Nat → Except String (ApiResponse (List ModelResponse)))
    (jit : Nat → Nat) (retries : Nat) :
    Except String (ApiResponse (List ModelResponse)) × List Nat :=
  retryGo call jit retries 0

/-- An error message for a probe call that always fails. -/
def failMsg : String := "simulated failure"

/-- A probe underlying call that fails on every attempt. -/
def failCall : Nat → Except String (ApiResponse (List ModelResponse)) :=
  fun _ => Except.error failMsg

/-- A probe jitter sequence that always draws 0. -/
def zeroJit : Nat → Nat := fun _ => 0

/-- A probe random sequence that always draws 0. -/
def zeroRnd : Nat → ℚ := fun _ => 0

/-- Per-backend outcomes in which every backend fails. -/
def failOutcomes : String → Except String (ApiResponse (List ModelResponse)) :=
  fun _ => Except.error failMsg

/-- Tagging of one merged item, lines 155–161: append the model name to its
sources and set its model field. -/
def tagItem (m : String) (item : ModelResponse) : ModelResponse :=
  { item with sources := item.sources ++ [m], model := m }

/-- The inner `result.value.data.forEach(... responses.push ...)` loop. -/
def pushItems (m : String) (acc : List ModelResponse) (items : List ModelResponse) :
    List ModelResponse :=
  items.foldl (fun acc item => acc ++ [tagItem m item]) acc

/-- The merge loop of `queryAllModels`, lines 144–164: fold over the
settled results (paired with their model by index), pushing the tagged
items of each fulfilled result and skipping rejected ones. -/
def queryAllAggregate (settled : List (String × Outcome)) : List ModelResponse :=
  settled.foldl
    (fun acc p =>
      match p.2 with
      | Except.ok r => pushItems p.1 acc r.data
      | Except.error _ => acc)
    []

/-- One backend's contribution to the merged list, as the spec words it:
a successful backend contributes its items, tagged; a failed backend
contributes no items. -/
def backendContribution (p : String × Outcome) : List ModelResponse :=
  match p.2 with
  | Except.ok r => r.data.map (tagItem p.1)
  | Except.error _ => []

/-- Modelled from the spec's aggregation sentence: the concatenation of
all successful backends' items, in backend-declaration order. -/
def queryAllSpec (outcomes : String → Outcome) : List ModelResponse :=
  MODELS.flatMap (fun m => backendContribution (m, outcomes m))

/-- The progress events one backend's fan-out task emits, lines 111–141:
`pending` first, then `success` (with latency) or `error` (with message). -/
def backendEvents (m : String) (outcome : Outcome) (lat : ℚ) : List ModelStatus :=
  ⟨m, QueryStatus.pending, none, none⟩ ::
    (match outcome with
     | Except.ok _ => [⟨m, QueryStatus.success, some lat, none⟩]
     | Except.error e => [⟨m, QueryStatus.error, none, some e⟩])

/-- The separator of the simulated item id `model-now`. -/
def simDash : String := "-"

/-- The simulated item's content prefix. -/
def simPrefix : String := "Simulated response from "

/-- `simulateAPICall`, lines 173–190: one item whose sources list is
initialized to the model name, with the `Date.now()` reading and the
`Math.random()` confidence draw made explicit. -/
def simulateAPICall (model : String) (now : ℚ) (conf : ℚ) : List ModelResponse :=
  [{ id := model ++ simDash ++ toString now
     content := simPrefix ++ model
     confidence := conf
     sources := [model]
     model := model }]

/-- The first configured backend's name. -/
def gptName : String := "GPT-4o"

/-- A probe wrapped response with no items. -/
def okResp : ApiResponse (List ModelResponse) :=
  { data := [], timestamp := 0, source := simPrefix }

/-- A probe underlying call that fails on attempt 0 and succeeds after. -/
def cexCall : Nat → Except String (ApiResponse (List ModelResponse)) :=
  fun i => if i = 0 then Except.error failMsg else Except.ok okResp

/-- A one-backend settled list whose data came from `simulateAPICall`. -/
def simSettled : List (String × Outcome) :=
  [(gptName, Except.ok ⟨simulateAPICall gptName 5 (1/2), 5, gptName⟩)]

end Orchestrator

namespace Orchestrator

/-! Helper lemmas about the merge loop. -/

theorem pushItems_eq (m : String) (items : List ModelResponse) :
    ∀ acc, pushItems m acc items = acc ++ items.map (tagItem m) := by
  induction items with
  | nil => intro acc; simp [pushItems]
  | cons it its ih =>
    intro acc
    have h := ih (acc ++ [tagItem m it])
    simp only [pushItems, List.foldl_cons] at h ⊢
    simp [h]

theorem aggGo_eq (settled : List (String × Outcome)) :
    ∀ acc,
      settled.foldl
        (fun acc p =>
          match p.2 with
          | Except.ok r => pushItems p.1 acc r.data
          | Except.error _ => acc)
        acc
      = acc ++ settled.flatMap backendContribution := by
  induction settled with
  | nil => intro acc; simp
  | cons p rest ih =>
    intro acc
    rcases p with ⟨m, outcome⟩
    rw [List.foldl_cons, List.flatMap_cons, ih]
    cases outcome with
    | ok r => simp [pushItems_eq, backendContribution]
    | error e => simp [backendContribution]

theorem queryAllAggregate_eq (settled : List (String × Outcome)) :
    queryAllAggregate settled = settled.flatMap backendContribution := by
  simpa [queryAllAggregate] using aggGo_eq settled []

end Orchestrator

/-- C1: `queryAllModels` settles every configured backend (each backend
appears with its own terminal outcome in the settled list consumed by the
merge loop, so no failure aborts the others), and the returned list is
exactly the concatenation of the successful backends' tagged items in
backend-declaration order, failed backends contributing nothing. -/
theorem queryAllModels_settle_all_merge (outcomes : String → Orchestrator.Outcome) :
    Orchestrator.queryAllAggregate (Orchestrator.MODELS.map (fun m => (m, outcomes m)))
      = Orchestrator.queryAllSpec outcomes := by
  rw [Orchestrator.queryAllAggregate_eq, Orchestrator.queryAllSpec]
  simp [Orchestrator.MODELS]

/-- C2: when every backend's query fails, `queryAllModels` still returns
(with the empty list) rather than failing, and each backend's fan-out task
emits exactly one error event, carrying that backend's error message. -/
theorem queryAllModels_total_failure_empty (outcomes : String → Orchestrator.Outcome) (lat : ℚ)
    (hall : ∀ m ∈ Orchestrator.MODELS, ∃ e, outcomes m = Except.error e) :
    Orchestrator.queryAllAggregate (Orchestrator.MODELS.map (fun m => (m, outcomes m))) = [] ∧
    ∀ m ∈ Orchestrator.MODELS, ∀ e, outcomes m = Except.error e →
      (Orchestrator.backendEvents m (outcomes m) lat).filter
          (fun ev => ev.status == Orchestrator.QueryStatus.error)
        = [⟨m, Orchestrator.QueryStatus.error, none, some e⟩] := by
  constructor
  · rw [Orchestrator.queryAllAggregate_eq]
    rw [List.flatMap_eq_nil_iff]
    intro p hp
    rw [List.mem_map] at hp
    obtain ⟨m, hm, rfl⟩ := hp
    obtain ⟨e, he⟩ := hall m hm
    simp [Orchestrator.backendContribution, he]
  · intro m _ e he
    rw [he]
    rfl

/-- C8: every item merged by `queryAllModels` from a fulfilled backend whose
data came from the built-in `simulateAPICall` has its originating model
name at least twice in its sources (once from the simulated call, once
appended by the merge loop), its model field set to the originating model,
and the originating model as the last element of its sources. -/
theorem simulated_sources_tagged (settled : List (String × Orchestrator.Outcome))
    (hsim : ∀ p ∈ settled, ∀ r, p.2 = Except.ok r →
      ∃ t c, r.data = Orchestrator.simulateAPICall p.1 t c) :
    (∀ item ∈ Orchestrator.queryAllAggregate settled,
       2 ≤ item.sources.count item.model ∧ item.sources.getLast? = some item.model) ∧
    (∀ p ∈ settled, ∀ r, p.2 = Except.ok r →
       ∀ item ∈ r.data.map (Orchestrator.tagItem p.1),
         item.model = p.1 ∧ item.sources.getLast? = some p.1) := by
  constructor
  · intro item hitem
    rw [Orchestrator.queryAllAggregate_eq, List.mem_flatMap] at hitem
    obtain ⟨p, hp, hmem⟩ := hitem
    match hout : p.2 with
    | Except.error e => simp [Orchestrator.backendContribution, hout] at hmem
    | Except.ok r =>
      obtain ⟨t, c, hdata⟩ := hsim p hp r hout
      simp [Orchestrator.backendContribution, hout, hdata,
            Orchestrator.simulateAPICall, Orchestrator.tagItem] at hmem
      subst hmem
      simp [Orchestrator.tagItem]
  · intro p _ r hout item hitem
    rw [List.mem_map] at hitem
    obtain ⟨it0, _, rfl⟩ := hitem
    simp [Orchestrator.tagItem]

namespace RL

/-- Auxiliary: subtraction distributes over a binary minimum of rationals. -/
theorem min_sub_dist (a b c : ℚ) : min a b - c = min (a - c) (b - c) := by
  rcases le_total a b with h | h <;>
    simp [min_def, h, sub_le_sub_iff_right]

end RL

/-- C4: `tryAcquire` first refills lazily to
`min(bucketSize, tokens + elapsed_seconds * tokensPerSecond)` (stamping
`lastRefill`), then, when at least one token is held, consumes one and
returns true; otherwise it returns false and leaves the state unchanged
beyond that refill. -/
theorem tryAcquire_refill_then_decrement (s : RL.State) (now : ℚ)
    (hnow : s.lastRefill ≤ now) (hcap : s.tokens ≤ s.bucketSize) :
    (1 ≤ min s.bucketSize (s.tokens + (now - s.lastRefill) / 1000 * s.tokensPerSecond) →
      RL.tryAcquireFn now s
        = (true,
           { s with
               tokens := min s.bucketSize
                 (s.tokens + (now - s.lastRefill) / 1000 * s.tokensPerSecond) - 1,
               lastRefill := now })) ∧
    (¬ 1 ≤ min s.bucketSize (s.tokens + (now - s.lastRefill) / 1000 * s.tokensPerSecond) →
      RL.tryAcquireFn now s
        = (false,
           { s with
               tokens := min s.bucketSize
                 (s.tokens + (now - s.lastRefill) / 1000 * s.tokensPerSecond),
               lastRefill := now })) := by
  rcases eq_or_lt_of_le hnow with heq | hlt
  · constructor <;> intro h <;>
      simp only [← heq, sub_self, zero_div, zero_mul, add_zero, min_eq_right hcap] at h ⊢ <;>
      simp [RL.tryAcquireFn, RL.refillTokens, h]
  · have hpos : ¬ (now - s.lastRefill ≤ 0) := by
      rw [not_le, sub_pos]; exact hlt
    constructor <;> intro h <;>
      simp [RL.tryAcquireFn, RL.refillTokens, hpos, h]

/-- C4 witness: a concrete full-bucket limiter with no elapsed time grants
a token and drops from 10 to 9. -/
theorem tryAcquire_refill_then_decrement_witness :
    ((RL.mkState 3 10 true).lastRefill ≤ 0 ∧ (RL.mkState 3 10 true).tokens ≤ (RL.mkState 3 10 true).bucketSize) ∧
    (1 ≤ min (RL.mkState 3 10 true).bucketSize
        ((RL.mkState 3 10 true).tokens
          + (0 - (RL.mkState 3 10 true).lastRefill) / 1000 * (RL.mkState 3 10 true).tokensPerSecond) →
      RL.tryAcquireFn 0 (RL.mkState 3 10 true)
        = (true,
           { RL.mkState 3 10 true with
               tokens := min (RL.mkState 3 10 true).bucketSize
                 ((RL.mkState 3 10 true).tokens
                   + (0 - (RL.mkState 3 10 true).lastRefill) / 1000 * (RL.mkState 3 10 true).tokensPerSecond) - 1,
               lastRefill := 0 })) :=
  ⟨⟨by decide, by decide⟩,
   (tryAcquire_refill_then_decrement (RL.mkState 3 10 true) 0 (by decide) (by decide)).1⟩

/-- C5 counterexample: with capacity 10, rate 1/s and 8 tokens held, 5
elapsed seconds increase the count by 2, not by `min(capacity, r·Δt) = 5`. -/
theorem refill_increase_counterexample :
    (RL.refillTokens 5000 (c5state)).tokens - (c5state).tokens = 2 ∧
    min (c5state).bucketSize ((c5state).tokensPerSecond * 5) = 5 ∧ (2 : ℚ) ≠ 5 := by
  refine ⟨?_, by norm_num [c5state], by decide⟩
  norm_num [RL.refillTokens, c5state]

/-- C5 amended: after `Δt` elapsed seconds with no acquisitions the token
count increases by exactly `min(capacity - tokens, r·Δt)` — equivalently,
it becomes `min(capacity, tokens + r·Δt)`. -/
theorem refill_increase_amended (s : RL.State) (dt : ℚ) (hdt : 0 < dt) :
    (RL.refillTokens (s.lastRefill + dt * 1000) s).tokens - s.tokens
      = min (s.bucketSize - s.tokens) (s.tokensPerSecond * dt) := by
  have hpos : ¬ (s.lastRefill + dt * 1000 - s.lastRefill ≤ 0) := by
    rw [not_le]
    have : s.lastRefill + dt * 1000 - s.lastRefill = dt * 1000 := by ring
    rw [this]
    positivity
  simp only [RL.refillTokens, hpos, if_false]
  rw [RL.min_sub_dist]
  have h2 : s.tokens + (s.lastRefill + dt * 1000 - s.lastRefill) / 1000 * s.tokensPerSecond - s.tokens
      = s.tokensPerSecond * dt := by ring
  rw [h2]

/-- C5 amended witness: capacity 10, rate 1/s, 8 tokens, 5 elapsed
seconds: the increase is `min(10 - 8, 1·5) = 2`. -/
theorem refill_increase_amended_witness :
    (0 : ℚ) < 5 ∧
    (RL.refillTokens ((c5state).lastRefill + 5 * 1000) (c5state)).tokens - (c5state).tokens
      = min ((c5state).bucketSize - (c5state).tokens) ((c5state).tokensPerSecond * 5) :=
  ⟨by decide, refill_increase_amended (c5state) 5 (by decide)⟩

/-- C10: `shutdown` leaves `tokens` and `lastRefill` unchanged, and a
subsequent `tryAcquire` returns the same boolean and produces the same
bucket state as on the un-shut-down limiter. -/
theorem shutdown_preserves_bucket (s : RL.State) (now : ℚ) :
    (RL.shutdownOp s).tokens = s.tokens ∧
    (RL.shutdownOp s).lastRefill = s.lastRefill ∧
    (RL.tryAcquireFn now (RL.shutdownOp s)).1 = (RL.tryAcquireFn now s).1 ∧
    (RL.tryAcquireFn now (RL.shutdownOp s)).2.tokens = (RL.tryAcquireFn now s).2.tokens ∧
    (RL.tryAcquireFn now (RL.shutdownOp s)).2.lastRefill = (RL.tryAcquireFn now s).2.lastRefill := by
  refine ⟨rfl, rfl, ?_, ?_, ?_⟩ <;>
    · simp only [RL.tryAcquireFn, RL.refillTokens, RL.shutdownOp]
      split_ifs <;> rfl

namespace Orchestrator

/-! Helper lemmas about the retry loop. -/

theorem retryGo_zero (call : Nat → Except String (ApiResponse (List ModelResponse)))
    (jit : Nat → Nat) (attempt : Nat) :
    retryGo call jit 0 attempt = (Except.error exhaustedMsg, []) := rfl

theorem retryGo_succ (call : Nat → Except String (ApiResponse (List ModelResponse)))
    (jit : Nat → Nat) (fuel attempt : Nat) :
    retryGo call jit (fuel + 1) attempt
      = match call attempt with
        | Except.ok v => (Except.ok v, [])
        | Except.error e =>
          if fuel = 0 then (Except.error e, [])
          else
            let r := retryGo call jit fuel (attempt + 1)
            (r.1, (backoffBase attempt + jit attempt) :: r.2) := by
  rw [retryGo]

theorem retryGo_ok (call : Nat → Except String (ApiResponse (List ModelResponse)))
    (jit : Nat → Nat) :
    ∀ (k fuel attempt : Nat) (v : ApiResponse (List ModelResponse)), k < fuel →
      (∀ i, attempt ≤ i → i < attempt + k → ∃ e, call i = Except.error e) →
      call (attempt + k) = Except.ok v →
      retryGo call jit fuel attempt
        = (Except.ok v, (List.range' attempt k).map (fun i => backoffBase i + jit i)) := by
  intro k
  induction k with
  | zero =>
    intro fuel attempt v hk _ hok
    match fuel, hk with
    | fuel + 1, _ =>
      rw [Nat.add_zero] at hok
      rw [retryGo_succ, hok]
      rfl
  | succ k ih =>
    intro fuel attempt v hk hfail hok
    match fuel, hk with
    | fuel + 1, hk =>
      obtain ⟨e, he⟩ := hfail attempt (Nat.le_refl attempt) (by omega)
      have hfuel : fuel ≠ 0 := by omega
      have ihr := ih fuel (attempt + 1) v (by omega)
        (fun i h1 h2 => hfail i (by omega) (by omega))
        (by rwa [show attempt + 1 + k = attempt + (k + 1) by omega])
      rw [retryGo_succ, he]
      simp only [hfuel, if_false, ihr, List.range'_succ]
      rfl

theorem retryGo_allFail (call : Nat → Except String (ApiResponse (List ModelResponse)))
    (jit : Nat → Nat) (errf : Nat → String) :
    ∀ (fuel attempt : Nat), 0 < fuel →
      (∀ i, attempt ≤ i → i < attempt + fuel → call i = Except.error (errf i)) →
      retryGo call jit fuel attempt
        = (Except.error (errf (attempt + fuel - 1)),
           (List.range' attempt (fuel - 1)).map (fun i => backoffBase i + jit i)) := by
  intro fuel
  induction fuel with
  | zero => intro attempt h; omega
  | succ fuel ih =>
    intro attempt _ hfail
    have he := hfail attempt (Nat.le_refl attempt) (by omega)
    match fuel with
    | 0 =>
      rw [retryGo_succ, he]
      simp
    | fuel + 1 =>
      have ihr := ih (attempt + 1) (Nat.succ_pos fuel)
        (fun i h1 h2 => hfail i (by omega) (by omega))
      have hix : attempt + 1 + (fuel + 1) - 1 = attempt + (fuel + 1 + 1) - 1 := by omega
      rw [retryGo_succ, he]
      simp only [Nat.succ_ne_zero, if_false, ihr, hix]
      simp only [Nat.add_sub_cancel, List.range'_succ]
      rfl

theorem jitterOf_lt (r : ℚ) (h0 : 0 ≤ r) (h1 : r < 1) : jitterOf r < 200 := by
  have hfl : ⌊r * 200⌋ < (200 : ℤ) := by
    rw [Int.floor_lt]
    push_cast
    nlinarith
  rw [jitterOf]
  omega

end Orchestrator

/-- C6 counterexample: the source applies no cap to the backoff base, so
no constant `cap` bounds the waits of the retry loop by
`min(cap, 2^attempt*1000) + jitter < cap + 200`: for every candidate cap
some all-failing run performs a wait of at least `cap + 200`. -/
theorem backoff_cap_counterexample :
    ¬ ∃ cap : Nat, ∀ retries : Nat,
        ∀ w ∈ (Orchestrator.queryModelRetry Orchestrator.failCall Orchestrator.zeroJit retries).2,
          w ≤ cap + 199 := by
  rintro ⟨cap, h⟩
  have hrun := Orchestrator.retryGo_allFail Orchestrator.failCall Orchestrator.zeroJit
      (fun _ => Orchestrator.failMsg) (cap + 2) 0 (by omega)
      (fun i _ _ => rfl)
  have hw : Orchestrator.backoffBase cap + Orchestrator.zeroJit cap
      ∈ (Orchestrator.queryModelRetry Orchestrator.failCall Orchestrator.zeroJit (cap + 2)).2 := by
    rw [Orchestrator.queryModelRetry, hrun]
    refine List.mem_map.mpr ⟨cap, ?_, rfl⟩
    rw [List.mem_range']
    exact ⟨cap, by omega, by omega⟩
  have hb := h (cap + 2) _ hw
  have hbig : cap + 200 ≤ Orchestrator.backoffBase cap + Orchestrator.zeroJit cap := by
    have h2 : cap < 2 ^ cap := Nat.lt_two_pow cap
    simp only [Orchestrator.backoffBase, Orchestrator.zeroJit]
    omega
  omega

/-- C6 amended: with `maxAttempts` attempts, every underlying-call failure
that is not the last attempt is followed by a wait of exactly
`2^attempt * 1000 ms + floor(200 * random)` — no cap is applied to the
exponential base — with the jitter in `[0, 200)`; on the last attempt's
failure the error is propagated and no further attempt or wait is made. -/
theorem queryModel_backoff_amended
    (call : Nat → Except String (Orchestrator.ApiResponse (List Orchestrator.ModelResponse)))
    (rnd : Nat → ℚ) (retries : Nat)
    (hrnd : ∀ i, 0 ≤ rnd i ∧ rnd i < 1) :
    (∀ k v, k < retries → (∀ i, i < k → ∃ e, call i = Except.error e) →
       call k = Except.ok v →
       Orchestrator.queryModelRetry call (fun i => Orchestrator.jitterOf (rnd i)) retries
         = (Except.ok v,
            (List.range k).map
              (fun i => Orchestrator.backoffBase i + Orchestrator.jitterOf (rnd i)))) ∧
    (∀ errf : Nat → String, 0 < retries →
       (∀ i, i < retries → call i = Except.error (errf i)) →
       Orchestrator.queryModelRetry call (fun i => Orchestrator.jitterOf (rnd i)) retries
         = (Except.error (errf (retries - 1)),
            (List.range (retries - 1)).map
              (fun i => Orchestrator.backoffBase i + Orchestrator.jitterOf (rnd i)))) ∧
    (∀ i, Orchestrator.jitterOf (rnd i) < 200) := by
  refine ⟨?_, ?_, fun i => Orchestrator.jitterOf_lt (rnd i) (hrnd i).1 (hrnd i).2⟩
  · intro k v hk hfail hok
    have h := Orchestrator.retryGo_ok call (fun i => Orchestrator.jitterOf (rnd i)) k retries 0 v hk
      (fun i h1 h2 => hfail i (by omega)) (by simpa using hok)
    rw [List.range_eq_range']
    exact h
  · intro errf hpos hfail
    have h := Orchestrator.retryGo_allFail call (fun i => Orchestrator.jitterOf (rnd i)) errf retries 0 hpos
      (fun i h1 h2 => hfail i (by omega))
    rw [List.range_eq_range']
    simpa using h

namespace RL

/-! Frame lemmas: the fields each bucket operation leaves unchanged. -/

@[simp] theorem refill_queue (now : ℚ) (s : State) : (refillTokens now s).queue = s.queue := by
  simp only [refillTokens]; split <;> rfl

@[simp] theorem refill_granted (now : ℚ) (s : State) : (refillTokens now s).granted = s.granted := by
  simp only [refillTokens]; split <;> rfl

@[simp] theorem refill_timedOut (now : ℚ) (s : State) : (refillTokens now s).timedOut = s.timedOut := by
  simp only [refillTokens]; split <;> rfl

@[simp] theorem refill_shutdownRejected (now : ℚ) (s : State) :
    (refillTokens now s).shutdownRejected = s.shutdownRejected := by
  simp only [refillTokens]; split <;> rfl

@[simp] theorem refill_nextId (now : ℚ) (s : State) : (refillTokens now s).nextId = s.nextId := by
  simp only [refillTokens]; split <;> rfl

@[simp] theorem refill_rate (now : ℚ) (s : State) :
    (refillTokens now s).tokensPerSecond = s.tokensPerSecond := by
  simp only [refillTokens]; split <;> rfl

@[simp] theorem refill_cap (now : ℚ) (s : State) :
    (refillTokens now s).bucketSize = s.bucketSize := by
  simp only [refillTokens]; split <;> rfl

@[simp] theorem tryA_queue (now : ℚ) (s : State) : ((tryAcquireFn now s).2).queue = s.queue := by
  simp only [tryAcquireFn]; split <;> simp

@[simp] theorem tryA_granted (now : ℚ) (s : State) : ((tryAcquireFn now s).2).granted = s.granted := by
  simp only [tryAcquireFn]; split <;> simp

@[simp] theorem tryA_timedOut (now : ℚ) (s : State) : ((tryAcquireFn now s).2).timedOut = s.timedOut := by
  simp only [tryAcquireFn]; split <;> simp

@[simp] theorem tryA_shutdownRejected (now : ℚ) (s : State) :
    ((tryAcquireFn now s).2).shutdownRejected = s.shutdownRejected := by
  simp only [tryAcquireFn]; split <;> simp

@[simp] theorem tryA_nextId (now : ℚ) (s : State) : ((tryAcquireFn now s).2).nextId = s.nextId := by
  simp only [tryAcquireFn]; split <;> simp

@[simp] theorem tryA_rate (now : ℚ) (s : State) :
    ((tryAcquireFn now s).2).tokensPerSecond = s.tokensPerSecond := by
  simp only [tryAcquireFn]; split <;> simp

@[simp] theorem tryA_cap (now : ℚ) (s : State) :
    ((tryAcquireFn now s).2).bucketSize = s.bucketSize := by
  simp only [tryAcquireFn]; split <;> simp

/-! Bucket-bound lemmas. -/

theorem refill_tokenInv (now : ℚ) (s : State) (hr : 0 ≤ s.tokensPerSecond)
    (h : TokenInv s) : TokenInv (refillTokens now s) := by
  simp only [TokenInv, refillTokens]
  split
  · exact h
  · next hne =>
    have helapsed : (0 : ℚ) < now - s.lastRefill := lt_of_not_le hne
    have hadded : 0 ≤ (now - s.lastRefill) / 1000 * s.tokensPerSecond :=
      mul_nonneg (div_nonneg helapsed.le (by norm_num)) hr
    refine ⟨le_min (h.1.trans h.2) ?_, min_le_left _ _⟩
    exact add_nonneg h.1 hadded

theorem tryA_tokenInv (now : ℚ) (s : State) (hr : 0 ≤ s.tokensPerSecond)
    (h : TokenInv s) : TokenInv ((tryAcquireFn now s).2) := by
  have href := refill_tokenInv now s hr h
  simp only [TokenInv, tryAcquireFn]
  split
  · next hone =>
    obtain ⟨h1, h2⟩ := href
    constructor
    · show (0 : ℚ) ≤ (refillTokens now s).tokens - 1
      linarith
    · show (refillTokens now s).tokens - 1 ≤ (refillTokens now s).bucketSize
      linarith
  · exact href

theorem drain_tokens (q : List Waiter) : ∀ t : ℚ, 0 ≤ t →
    0 ≤ (drain q t).2.1 ∧ (drain q t).2.1 ≤ t := by
  induction q with
  | nil => intro t ht; exact ⟨ht, le_refl t⟩
  | cons w ws ih =>
    intro t ht
    simp only [drain]
    split
    · next hone =>
      have := ih (t - 1) (by linarith)
      exact ⟨this.1, this.2.trans (by linarith)⟩
    · exact ⟨ht, le_refl t⟩

theorem drain_ids (q : List Waiter) : ∀ t : ℚ,
    (drain q t).2.2 ++ (drain q t).1.map Waiter.id = q.map Waiter.id := by
  induction q with
  | nil => intro t; rfl
  | cons w ws ih =>
    intro t
    simp only [drain]
    split
    · next hone => simp [ih (t - 1)]
    · rfl

theorem drain_mem (q : List Waiter) : ∀ t : ℚ, ∀ w ∈ (drain q t).1, w ∈ q := by
  induction q with
  | nil => intro t w h; simp [drain] at h
  | cons w0 ws ih =>
    intro t w h
    simp only [drain] at h
    split at h
    · exact List.mem_cons_of_mem w0 (ih (t - 1) w h)
    · exact h

/-! Lemmas about removing a timed-out waiter. -/

theorem removeById_spec (i : Nat) :
    ∀ q : List Waiter, ∀ w, (removeById i q).2 = some w →
      w.id = i ∧ w ∈ q ∧ (q.map Waiter.id).Perm (i :: (removeById i q).1.map Waiter.id) := by
  intro q
  induction q with
  | nil => intro w h; simp [removeById] at h
  | cons w0 ws ih =>
    intro w h
    by_cases h0 : w0.id = i
    · simp only [removeById, if_pos h0, Option.some.injEq] at h ⊢
      subst h
      refine ⟨h0, List.mem_cons_self w0 ws, ?_⟩
      rw [List.map_cons, h0]
    · simp only [removeById, if_neg h0] at h ⊢
      obtain ⟨hid, hmem, hperm⟩ := ih w h
      refine ⟨hid, List.mem_cons_of_mem w0 hmem, ?_⟩
      exact (hperm.cons w0.id).trans (List.Perm.swap i w0.id _)

theorem removeById_subset (i : Nat) :
    ∀ q : List Waiter, ∀ x ∈ (removeById i q).1, x ∈ q := by
  intro q
  induction q with
  | nil => intro x h; simp [removeById] at h
  | cons w0 ws ih =>
    intro x h
    by_cases h0 : w0.id = i
    · simp only [removeById, if_pos h0] at h
      exact List.mem_cons_of_mem w0 h
    · simp only [removeById, if_neg h0] at h
      rcases List.mem_cons.mp h with h1 | h1
      · exact h1 ▸ List.mem_cons_self w0 ws
      · exact List.mem_cons_of_mem w0 (ih x h1)

end RL

namespace RL

/-! Permutation shapes produced by the queue-moving operations. -/

theorem perm_snoc_second (n : Nat) (a b c d : List Nat) :
    (a ++ (b ++ [n]) ++ c ++ d).Perm (n :: (a ++ b ++ c ++ d)) := by
  rw [← Multiset.coe_eq_coe]
  simp only [← Multiset.cons_coe, ← Multiset.coe_add, ← Multiset.singleton_add]
  abel

theorem perm_snoc_first (n : Nat) (a b c d : List Nat) :
    ((a ++ [n]) ++ b ++ c ++ d).Perm (n :: (a ++ b ++ c ++ d)) := by
  rw [← Multiset.coe_eq_coe]
  simp only [← Multiset.cons_coe, ← Multiset.coe_add, ← Multiset.singleton_add]
  abel

theorem perm_drain_shape (q' g dg t sh q : List Nat) (h : dg ++ q' = q) :
    (q' ++ (g ++ dg) ++ t ++ sh).Perm (q ++ g ++ t ++ sh) := by
  rw [← Multiset.coe_eq_coe, ← h]
  simp only [← Multiset.cons_coe, ← Multiset.coe_add, ← Multiset.singleton_add]
  abel

theorem perm_fire_shape (q q' g t sh : List Nat) (i : Nat) (h : q.Perm (i :: q')) :
    (q' ++ g ++ (t ++ [i]) ++ sh).Perm (q ++ g ++ t ++ sh) := by
  rw [← Multiset.coe_eq_coe]
  have h2 : (↑q : Multiset Nat) = ↑(i :: q') := Multiset.coe_eq_coe.mpr h
  simp only [← Multiset.coe_add, h2, ← Multiset.cons_coe, ← Multiset.singleton_add]
  abel

theorem perm_shutdown_shape (g t sh q : List Nat) :
    (g ++ t ++ (sh ++ q)).Perm (q ++ g ++ t ++ sh) := by
  rw [← Multiset.coe_eq_coe]
  simp only [← Multiset.cons_coe, ← Multiset.coe_add, ← Multiset.singleton_add]
  abel

/-! Per-operation preservation of the id bookkeeping invariant. -/

theorem idsInv_of_perm (s s' : State) (hperm : (allIds s').Perm (allIds s))
    (hnext : s.nextId ≤ s'.nextId) (h : IdsInv s) : IdsInv s' := by
  obtain ⟨hnd, hbound⟩ := h
  refine ⟨hperm.symm.nodup hnd, fun i hi => ?_⟩
  exact lt_of_lt_of_le (hbound i (hperm.subset hi)) hnext

theorem idsInv_fresh_cons (s s' : State)
    (hperm : (allIds s').Perm (s.nextId :: allIds s))
    (hnext : s'.nextId = s.nextId + 1) (h : IdsInv s) : IdsInv s' := by
  obtain ⟨hnd, hbound⟩ := h
  have hfresh : s.nextId ∉ allIds s := fun hmem => lt_irrefl _ (hbound _ hmem)
  refine ⟨hperm.symm.nodup (List.nodup_cons.mpr ⟨hfresh, hnd⟩), fun i hi => ?_⟩
  rcases List.mem_cons.mp (hperm.subset hi) with h1 | h1
  · omega
  · have := hbound i h1
    omega

theorem idsInv_applyOp (s : State) (op : Op) (h : IdsInv s) :
    IdsInv (applyOp s op) ∧ s.nextId ≤ (applyOp s op).nextId := by
  cases op with
  | tryAcq now =>
    have hids : allIds ((tryAcquireFn now s).2) = allIds s := by
      simp [allIds]
    have hnext : ((tryAcquireFn now s).2).nextId = s.nextId := by simp
    refine ⟨?_, le_of_eq hnext.symm⟩
    simp only [applyOp, IdsInv, hids, hnext]
    exact h
  | acq now tmo =>
    simp only [applyOp, acqOp]
    split
    · refine ⟨idsInv_fresh_cons s _ ?_ (by simp) h, by simp⟩
      simp only [allIds]
      simp only [tryA_queue, tryA_granted, tryA_timedOut, tryA_shutdownRejected, tryA_nextId]
      exact perm_snoc_second s.nextId _ _ _ _
    · refine ⟨idsInv_fresh_cons s _ ?_ (by simp) h, by simp⟩
      simp only [allIds]
      simp only [tryA_queue, tryA_granted, tryA_timedOut, tryA_shutdownRejected, tryA_nextId,
        List.map_append, List.map_cons, List.map_nil]
      exact perm_snoc_first s.nextId _ _ _ _
  | process now =>
    simp only [applyOp, processOp]
    refine ⟨idsInv_of_perm s _ ?_ (by simp) h, by simp⟩
    simp only [allIds]
    simp only [refill_queue, refill_granted, refill_timedOut, refill_shutdownRejected]
    exact perm_drain_shape _ _ _ _ _ _ (drain_ids s.queue ((refillTokens now s).tokens))
  | fire i =>
    simp only [applyOp, fireOp]
    match hrem : (removeById i s.queue).2 with
    | none => exact ⟨h, le_refl _⟩
    | some w =>
      obtain ⟨hid, hmem, hperm⟩ := removeById_spec i s.queue w hrem
      by_cases harmed : w.armed
      · simp only [harmed, if_true]
        refine ⟨idsInv_of_perm s _ ?_ (le_refl _) h, le_refl _⟩
        simp only [allIds]
        exact perm_fire_shape _ _ _ _ _ i hperm
      · simp only [harmed, if_false]
        exact ⟨h, le_refl _⟩
  | shutdown =>
    simp only [applyOp, shutdownOp]
    refine ⟨idsInv_of_perm s _ ?_ (le_refl _) h, le_refl _⟩
    simp only [allIds, List.map_nil, List.nil_append]
    exact perm_shutdown_shape _ _ _ _

theorem idsInv_run : ∀ (ops : List Op) (s : State), IdsInv s →
    IdsInv (run s ops) ∧ s.nextId ≤ (run s ops).nextId := by
  intro ops
  induction ops with
  | nil => intro s h; exact ⟨h, le_refl _⟩
  | cons op rest ih =>
    intro s h
    have hstep := idsInv_applyOp s op h
    have hrest := ih (applyOp s op) hstep.1
    exact ⟨hrest.1, hstep.2.trans hrest.2⟩

end RL

namespace RL

/-! Preservation of the bucket bounds by every operation. -/

theorem frame_applyOp (s : State) (op : Op) :
    (applyOp s op).tokensPerSecond = s.tokensPerSecond ∧
    (applyOp s op).bucketSize = s.bucketSize := by
  cases op with
  | tryAcq now => exact ⟨tryA_rate now s, tryA_cap now s⟩
  | acq now tmo =>
    simp only [applyOp, acqOp]
    split <;> exact ⟨tryA_rate now s, tryA_cap now s⟩
  | process now =>
    simp only [applyOp, processOp]
    exact ⟨refill_rate now s, refill_cap now s⟩
  | fire i =>
    simp only [applyOp, fireOp]
    split
    · split <;> exact ⟨rfl, rfl⟩
    · exact ⟨rfl, rfl⟩
  | shutdown => exact ⟨rfl, rfl⟩

theorem tokenInv_applyOp (s : State) (op : Op) (hr : 0 ≤ s.tokensPerSecond)
    (h : TokenInv s) : TokenInv (applyOp s op) := by
  cases op with
  | tryAcq now => exact tryA_tokenInv now s hr h
  | acq now tmo =>
    have htl := tryA_tokenInv now s hr h
    simp only [applyOp, acqOp]
    split <;> exact htl
  | process now =>
    have hs' := refill_tokenInv now s hr h
    have hd := drain_tokens ((refillTokens now s).queue) ((refillTokens now s).tokens) hs'.1
    exact ⟨hd.1, hd.2.trans hs'.2⟩
  | fire i =>
    simp only [applyOp, fireOp]
    split
    · split
      · exact ⟨h.1, h.2⟩
      · exact h
    · exact h
  | shutdown => exact h

theorem tokenInv_run : ∀ (ops : List Op) (s : State), 0 ≤ s.tokensPerSecond → TokenInv s →
    TokenInv (run s ops) ∧ (run s ops).bucketSize = s.bucketSize := by
  intro ops
  induction ops with
  | nil => intro s _ h; exact ⟨h, rfl⟩
  | cons op rest ih =>
    intro s hr h
    have hframe := frame_applyOp s op
    have hstep := tokenInv_applyOp s op hr h
    have hrest := ih (applyOp s op) (hframe.1 ▸ hr) hstep
    exact ⟨hrest.1, hrest.2.trans hframe.2⟩

/-- From no-duplicates of a four-segment concatenation, the second and
third segments are disjoint. -/
theorem disj_of_nodup_four (a b c d : List Nat) (h : (a ++ b ++ c ++ d).Nodup) :
    b.Disjoint c := by
  have hperm : (a ++ b ++ c ++ d).Perm ((b ++ c) ++ (a ++ d)) := by
    rw [← Multiset.coe_eq_coe]
    simp only [← Multiset.coe_add]
    abel
  have h2 := hperm.nodup h
  have h3 := (List.nodup_append.mp h2).1
  exact (List.nodup_append.mp h3).2.2

/-! Preservation of the never-times-out property. -/

theorem noTimeout_applyOp (s : State) (op : Op) (i : Nat)
    (h : NoTimeoutFor i s) : NoTimeoutFor i (applyOp s op) := by
  obtain ⟨hlt, hnt, hq⟩ := h
  cases op with
  | tryAcq now =>
    refine ⟨?_, ?_, ?_⟩
    · show i < ((tryAcquireFn now s).2).nextId
      rw [tryA_nextId]; exact hlt
    · show i ∉ ((tryAcquireFn now s).2).timedOut
      rw [tryA_timedOut]; exact hnt
    · show ∀ w ∈ ((tryAcquireFn now s).2).queue, w.id = i → w.armed = false
      rw [tryA_queue]; exact hq
  | acq now tmo =>
    simp only [applyOp, acqOp]
    split
    · refine ⟨?_, ?_, ?_⟩
      · show i < ((tryAcquireFn now s).2).nextId + 1
        rw [tryA_nextId]; omega
      · show i ∉ ((tryAcquireFn now s).2).timedOut
        rw [tryA_timedOut]; exact hnt
      · show ∀ w ∈ ((tryAcquireFn now s).2).queue, w.id = i → w.armed = false
        rw [tryA_queue]; exact hq
    · refine ⟨?_, ?_, ?_⟩
      · show i < ((tryAcquireFn now s).2).nextId + 1
        rw [tryA_nextId]; omega
      · show i ∉ ((tryAcquireFn now s).2).timedOut
        rw [tryA_timedOut]; exact hnt
      · show ∀ w ∈ ((tryAcquireFn now s).2).queue ++ [⟨((tryAcquireFn now s).2).nextId, armedOf tmo⟩],
          w.id = i → w.armed = false
        rw [tryA_queue, tryA_nextId]
        intro w hw hid
        rcases List.mem_append.mp hw with h1 | h1
        · exact hq w h1 hid
        · rcases List.mem_singleton.mp h1 with rfl
          simp only at hid
          omega
  | process now =>
    refine ⟨?_, ?_, ?_⟩
    · show i < (refillTokens now s).nextId
      rw [refill_nextId]; exact hlt
    · show i ∉ ((refillTokens now s).timedOut)
      rw [refill_timedOut]; exact hnt
    · intro w hw hid
      have hmem : w ∈ (refillTokens now s).queue :=
        drain_mem _ _ w hw
      rw [refill_queue] at hmem
      exact hq w hmem hid
  | fire j =>
    simp only [applyOp, fireOp]
    match hrem : (removeById j s.queue).2 with
    | none => exact ⟨hlt, hnt, hq⟩
    | some w =>
      obtain ⟨hid, hmem, _⟩ := removeById_spec j s.queue w hrem
      by_cases harmed : w.armed
      · simp only [harmed, if_true]
        have hne : j ≠ i := by
          intro hji
          have hf := hq w hmem (by rw [hid, hji])
          rw [hf] at harmed
          exact Bool.false_ne_true harmed
        refine ⟨hlt, ?_, ?_⟩
        · intro hmem2
          rcases List.mem_append.mp hmem2 with h1 | h1
          · exact hnt h1
          · exact hne (List.mem_singleton.mp h1).symm
        · intro w' hw' hid'
          exact hq w' (removeById_subset j s.queue w' hw') hid'
      · simp only [harmed, if_false]
        exact ⟨hlt, hnt, hq⟩
  | shutdown =>
    refine ⟨hlt, hnt, ?_⟩
    intro w hw
    exact ((List.not_mem_nil w) hw).elim

theorem noTimeout_run : ∀ (ops : List Op) (s : State) (i : Nat),
    NoTimeoutFor i s → NoTimeoutFor i (run s ops) := by
  intro ops
  induction ops with
  | nil => intro s i h; exact h
  | cons op rest ih =>
    intro s i h
    exact ih (applyOp s op) i (noTimeout_applyOp s op i h)

theorem idsInv_mkState (rate cap : ℚ) (startFull : Bool) : IdsInv (mkState rate cap startFull) := by
  constructor <;> simp [allIds, mkState]

end RL

namespace RL

theorem mem_allIds_of_timedOut (s : State) (j : Nat) (h : j ∈ s.timedOut) : j ∈ allIds s := by
  simp [allIds, List.mem_append, h]

theorem mem_allIds_of_queue (s : State) (w : Waiter) (h : w ∈ s.queue) : w.id ∈ allIds s := by
  have hm : w.id ∈ s.queue.map Waiter.id := List.mem_map_of_mem Waiter.id h
  simp [allIds, List.mem_append, hm]

end RL

/-- C3: on a limiter built with positive rate and capacity, every sequence
of operations (tryAcquire, acquire, queue processing, timer fires,
shutdown) keeps the token count within `0 ≤ tokens ≤ capacity`. -/
theorem rateLimiter_tokens_bounded (rate cap : ℚ) (startFull : Bool) (ops : List RL.Op)
    (hrate : 0 < rate) (hcap : 0 < cap) :
    0 ≤ (RL.run (RL.mkState rate cap startFull) ops).tokens ∧
    (RL.run (RL.mkState rate cap startFull) ops).tokens ≤ cap := by
  have h0 : RL.TokenInv (RL.mkState rate cap startFull) := by
    constructor
    · show (0 : ℚ) ≤ if startFull then cap else 0
      split
      · exact hcap.le
      · exact le_refl 0
    · show (if startFull then cap else (0 : ℚ)) ≤ cap
      split
      · exact le_refl cap
      · exact hcap.le
  have hrun := RL.tokenInv_run ops (RL.mkState rate cap startFull) hrate.le h0
  refine ⟨hrun.1.1, ?_⟩
  exact le_of_le_of_eq hrun.1.2 hrun.2

/-- C3 witness: rate 3, capacity 10, one tryAcquire at time 0. -/
theorem rateLimiter_tokens_bounded_witness :
    (0 : ℚ) < 3 ∧ (0 : ℚ) < 10 ∧
    (0 ≤ (RL.run (RL.mkState 3 10 true) [RL.Op.tryAcq 0]).tokens ∧
     (RL.run (RL.mkState 3 10 true) [RL.Op.tryAcq 0]).tokens ≤ 10) :=
  ⟨by decide, by decide,
   rateLimiter_tokens_bounded 3 10 true [RL.Op.tryAcq 0] (by decide) (by decide)⟩

/-- C7: along every sequence of limiter operations, waiter bookkeeping
stays exactly-once: the queue, granted, timed-out and shutdown-rejected
id lists never share an id (so a waiter is granted or timed out, never
both — whichever path runs first removes the waiter from the queue and the
other path can no longer see it). -/
theorem rateLimiter_waiter_settled_once (rate cap : ℚ) (startFull : Bool) (ops : List RL.Op) :
    (RL.allIds (RL.run (RL.mkState rate cap startFull) ops)).Nodup ∧
    List.Disjoint (RL.run (RL.mkState rate cap startFull) ops).granted
      (RL.run (RL.mkState rate cap startFull) ops).timedOut := by
  have h := (RL.idsInv_run ops (RL.mkState rate cap startFull)
    (RL.idsInv_mkState rate cap startFull)).1
  refine ⟨h.1, ?_⟩
  have hnd := h.1
  rw [RL.allIds] at hnd
  exact RL.disj_of_nodup_four _ _ _ _ hnd

/-- C9: an `acquire` whose timeout is omitted, zero or negative enqueues
its waiter with no timer armed when no token is immediately available, and
that waiter can never end up timed out, whatever happens afterwards. -/
theorem acquire_no_timer_never_times_out (rate cap : ℚ) (startFull : Bool)
    (pre : List RL.Op) (now : ℚ) (tmo : Option ℚ) (ops : List RL.Op)
    (htmo : ∀ t, tmo = some t → t ≤ 0)
    (hq : (RL.tryAcquireFn now (RL.run (RL.mkState rate cap startFull) pre)).1 = false) :
    RL.Waiter.mk (RL.run (RL.mkState rate cap startFull) pre).nextId false
      ∈ (RL.applyOp (RL.run (RL.mkState rate cap startFull) pre) (RL.Op.acq now tmo)).queue ∧
    (RL.run (RL.mkState rate cap startFull) pre).nextId
      ∉ (RL.run (RL.applyOp (RL.run (RL.mkState rate cap startFull) pre)
          (RL.Op.acq now tmo)) ops).timedOut := by
  set s0 := RL.run (RL.mkState rate cap startFull) pre with hs0
  have harm : RL.armedOf tmo = false := by
    cases tmo with
    | none => rfl
    | some t =>
      have ht := htmo t rfl
      simp only [RL.armedOf, decide_eq_false_iff_not, not_lt]
      exact ht
  have hIds0 : RL.IdsInv s0 := (RL.idsInv_run pre _ (RL.idsInv_mkState rate cap startFull)).1
  have hs1 : RL.applyOp s0 (RL.Op.acq now tmo)
      = { (RL.tryAcquireFn now s0).2 with
            queue := ((RL.tryAcquireFn now s0).2).queue
              ++ [⟨((RL.tryAcquireFn now s0).2).nextId, RL.armedOf tmo⟩],
            nextId := ((RL.tryAcquireFn now s0).2).nextId + 1 } := by
    simp only [RL.applyOp, RL.acqOp, hq, Bool.false_eq_true, if_false]
  have hfresh : ∀ j ∈ RL.allIds s0, j < s0.nextId := hIds0.2
  have hmemq : RL.Waiter.mk s0.nextId false ∈ (RL.applyOp s0 (RL.Op.acq now tmo)).queue := by
    rw [hs1]
    show RL.Waiter.mk s0.nextId false ∈
      ((RL.tryAcquireFn now s0).2).queue ++ [⟨((RL.tryAcquireFn now s0).2).nextId, RL.armedOf tmo⟩]
    rw [RL.tryA_nextId, harm]
    exact List.mem_append_right _ (List.mem_singleton_self _)
  have hNT : RL.NoTimeoutFor s0.nextId (RL.applyOp s0 (RL.Op.acq now tmo)) := by
    rw [hs1]
    refine ⟨?_, ?_, ?_⟩
    · show s0.nextId < ((RL.tryAcquireFn now s0).2).nextId + 1
      rw [RL.tryA_nextId]
      omega
    · show s0.nextId ∉ ((RL.tryAcquireFn now s0).2).timedOut
      rw [RL.tryA_timedOut]
      intro hmem
      exact absurd (hfresh _ (RL.mem_allIds_of_timedOut s0 _ hmem)) (lt_irrefl _)
    · show ∀ w ∈ ((RL.tryAcquireFn now s0).2).queue
          ++ [⟨((RL.tryAcquireFn now s0).2).nextId, RL.armedOf tmo⟩],
        w.id = s0.nextId → w.armed = false
      rw [RL.tryA_queue, RL.tryA_nextId]
      intro w hw hid
      rcases List.mem_append.mp hw with h1 | h1
      · have hlt := hfresh _ (RL.mem_allIds_of_queue s0 w h1)
        omega
      · rcases List.mem_singleton.mp h1 with rfl
        exact harm
  exact ⟨hmemq, (RL.noTimeout_run ops _ _ hNT).2.1⟩

/-- C9 witness: an empty-bucket limiter, acquire with no timeout at time
0: the waiter is queued unarmed and never times out. -/
theorem acquire_no_timer_never_times_out_witness :
    (∀ t : ℚ, (none : Option ℚ) = some t → t ≤ 0) ∧
    ((RL.tryAcquireFn 0 (RL.run (RL.mkState 3 10 false) [])).1 = false) ∧
    (RL.Waiter.mk (RL.run (RL.mkState 3 10 false) []).nextId false
       ∈ (RL.applyOp (RL.run (RL.mkState 3 10 false) []) (RL.Op.acq 0 none)).queue ∧
     (RL.run (RL.mkState 3 10 false) []).nextId
       ∉ (RL.run (RL.applyOp (RL.run (RL.mkState 3 10 false) [])
           (RL.Op.acq 0 none)) []).timedOut) :=
  by
  refine ⟨(fun t h => nomatch h), ?_, ?_⟩
  · simp [RL.run, RL.tryAcquireFn, RL.refillTokens, RL.mkState, (by decide : ¬ (1:ℚ) ≤ 0)]
  · exact acquire_no_timer_never_times_out 3 10 false [] 0 none []
      (fun t h => nomatch h)
      (by simp [RL.run, RL.tryAcquireFn, RL.refillTokens, RL.mkState, (by decide : ¬ (1:ℚ) ≤ 0)])

/-- C2 witness: all three backends fail with the probe error message. -/
theorem queryAllModels_total_failure_empty_witness :
    (∀ m ∈ Orchestrator.MODELS, ∃ e, Orchestrator.failOutcomes m = Except.error e) ∧
    (Orchestrator.queryAllAggregate
        (Orchestrator.MODELS.map (fun m => (m, Orchestrator.failOutcomes m))) = [] ∧
     ∀ m ∈ Orchestrator.MODELS, ∀ e, Orchestrator.failOutcomes m = Except.error e →
       (Orchestrator.backendEvents m (Orchestrator.failOutcomes m) 0).filter
           (fun ev => ev.status == Orchestrator.QueryStatus.error)
         = [⟨m, Orchestrator.QueryStatus.error, none, some e⟩]) :=
  ⟨(fun m _ => ⟨Orchestrator.failMsg, rfl⟩),
   queryAllModels_total_failure_empty Orchestrator.failOutcomes 0
     (fun m _ => ⟨Orchestrator.failMsg, rfl⟩)⟩

/-- C6 amended witness: a call failing once then succeeding, zero random
draws, three attempts. -/
theorem queryModel_backoff_amended_witness :
    (∀ i, 0 ≤ Orchestrator.zeroRnd i ∧ Orchestrator.zeroRnd i < 1) ∧
    ((∀ k v, k < 3 → (∀ i, i < k → ∃ e, Orchestrator.cexCall i = Except.error e) →
       Orchestrator.cexCall k = Except.ok v →
       Orchestrator.queryModelRetry Orchestrator.cexCall
           (fun i => Orchestrator.jitterOf (Orchestrator.zeroRnd i)) 3
         = (Except.ok v,
            (List.range k).map
              (fun i => Orchestrator.backoffBase i
                + Orchestrator.jitterOf (Orchestrator.zeroRnd i)))) ∧
    (∀ errf : Nat → String, 0 < 3 →
       (∀ i, i < 3 → Orchestrator.cexCall i = Except.error (errf i)) →
       Orchestrator.queryModelRetry Orchestrator.cexCall
           (fun i => Orchestrator.jitterOf (Orchestrator.zeroRnd i)) 3
         = (Except.error (errf (3 - 1)),
            (List.range (3 - 1)).map
              (fun i => Orchestrator.backoffBase i
                + Orchestrator.jitterOf (Orchestrator.zeroRnd i)))) ∧
    (∀ i, Orchestrator.jitterOf (Orchestrator.zeroRnd i) < 200)) :=
  ⟨(fun i => ⟨le_refl 0, (by decide : (0:ℚ) < 1)⟩),
   queryModel_backoff_amended Orchestrator.cexCall Orchestrator.zeroRnd 3
     (fun i => ⟨le_refl 0, (by decide : (0:ℚ) < 1)⟩)⟩

/-- C8 witness: a single simulated backend response for the first
configured model. -/
theorem simulated_sources_tagged_witness :
    (∀ p ∈ Orchestrator.simSettled, ∀ r, p.2 = Except.ok r →
       ∃ t c, r.data = Orchestrator.simulateAPICall p.1 t c) ∧
    ((∀ item ∈ Orchestrator.queryAllAggregate Orchestrator.simSettled,
        2 ≤ item.sources.count item.model ∧ item.sources.getLast? = some item.model) ∧
     (∀ p ∈ Orchestrator.simSettled, ∀ r, p.2 = Except.ok r →
        ∀ item ∈ r.data.map (Orchestrator.tagItem p.1),
          item.model = p.1 ∧ item.sources.getLast? = some p.1)) :=
  ⟨(fun p hp r hr => by
      rcases List.mem_singleton.mp hp with rfl
      injection hr with h
      exact ⟨5, 1/2, by rw [← h]⟩),
   simulated_sources_tagged Orchestrator.simSettled
     (fun p hp r hr => by
       rcases List.mem_singleton.mp hp with rfl
       injection hr with h
       exact ⟨5, 1/2, by rw [← h]⟩)⟩
